import Mathlib

/-!
Shallow embedding of the nestjs-smart-docs metadata-extraction and
OpenAPI-assembly pipeline, together with theorems about its behaviour.

Strings are modelled by Lean `String` (a wrapper over `List Char`); the
JavaScript regular-expression rewrites used by the source are implemented
as structurally recursive character-list transformations.
-/

/-- A JavaScript word character, the class matched by a backslash-w atom
in the source regex: ASCII letters, digits, and the underscore. -/
def wordChar (c : Char) : Bool := c.isAlphanum || c = '_'

/-- The opening curly-brace character. -/
def openBrace : Char := Char.ofNat 123

/-- The closing curly-brace character. -/
def closeBrace : Char := Char.ofNat 125

/-- One right-to-left step of the colon-placeholder rewrite.  The
accumulator holds the pending run of word characters directly to the right
of the current position, and the finished output to its right. -/
def replColonsStep (c : Char) (acc : List Char × List Char) : List Char × List Char :=
  if wordChar c then (c :: acc.1, acc.2)
  else if c = ':' ∧ acc.1 ≠ [] then ([], openBrace :: (acc.1 ++ closeBrace :: acc.2))
  else ([], c :: (acc.1 ++ acc.2))

/-- `replace(/:(\w+)/g, brace-form)` from `OpenApiGenerator.generatePaths`,
on character lists: every colon followed by a nonempty run of word
characters becomes that run enclosed in braces. -/
def replColonsList (l : List Char) : List Char :=
  let r := l.foldr replColonsStep ([], [])
  r.1 ++ r.2

/-- String form of the colon-placeholder rewrite. -/
def replaceColons (s : String) : String := ⟨replColonsList s.data⟩

/-- `true` when no colon in the list is immediately followed by a word
character, i.e. no colon-prefixed placeholder token remains. -/
def noColonTokB : List Char → Bool
  | [] => true
  | _ :: [] => true
  | a :: d :: rest => (a ≠ ':' || !(wordChar d)) && noColonTokB (d :: rest)

/-- String form of `noColonTokB`. -/
def noColonTokS (s : String) : Bool := noColonTokB s.data

/-- The slash character test used by the path-normalisation regexes. -/
def isSlash (c : Char) : Bool := c = '/'

/-- `segment.replace(/^\/+|\/+$/g, '')` from `OpenApiGenerator.combinePaths`:
strip leading and trailing slashes. -/
def stripSlashes (s : String) : String :=
  ⟨List.rdropWhile isSlash (s.data.dropWhile isSlash)⟩

/-- `Array.prototype.join('/')`. -/
def joinSlash : List String → String
  | [] => ""
  | [s] => s
  | s :: t :: rest => s ++ "/" ++ joinSlash (t :: rest)

/-- The segment pipeline of `OpenApiGenerator.combinePaths`:
`.filter(Boolean).map(strip).filter(Boolean)` (a string is truthy in
JavaScript exactly when it is nonempty). -/
def normalizeSegs (segments : List String) : List String :=
  ((segments.filter (fun s => s ≠ "")).map stripSlashes).filter (fun s => s ≠ "")

/-- `OpenApiGenerator.combinePaths(...segments)`. -/
def combinePaths (segments : List String) : String :=
  joinSlash (normalizeSegs segments)

/-- `String.prototype.trim()`: strip leading and trailing whitespace. -/
def jsTrim (s : String) : String :=
  ⟨List.rdropWhile Char.isWhitespace (s.data.dropWhile Char.isWhitespace)⟩

/-- `replace(/\/+/g, '/')` from `RouteScanner.combinePaths`: collapse every
run of slashes to a single slash. -/
def collapseSlashes (s : String) : String :=
  ⟨s.data.foldr (fun c acc => if c = '/' ∧ acc.head? = some '/' then acc else c :: acc) []⟩

/-- `RouteScanner.combinePaths(base, path)`. -/
def scannerCombinePaths (base path : String) : String :=
  if base = "" ∧ path = "" then "/"
  else if base = "" then collapseSlashes ("/" ++ path)
  else if path = "" then collapseSlashes ("/" ++ base)
  else
    let parts := collapseSlashes
      (joinSlash (([base, path].map jsTrim).filter (fun p => p ≠ "" ∧ p ≠ "/")))
    "/" ++ parts

/-- A word character is never a colon. -/
theorem wordChar_ne_colon {c : Char} (h : wordChar c = true) : c ≠ ':' := by
  intro hc
  subst hc
  revert h
  decide

/-- `noColonTokB` ignores a leading character that is not a colon. -/
theorem noColonTokB_cons_ne {a : Char} (t : List Char) (h : a ≠ ':') :
    noColonTokB (a :: t) = noColonTokB t := by
  cases t with
  | nil => rfl
  | cons d r => simp [noColonTokB, h]

/-- `noColonTokB` over an append whose first part is colon-free reduces to
the second part. -/
theorem noColonTokB_append (xs ys : List Char) (h : ∀ c ∈ xs, c ≠ ':') :
    noColonTokB (xs ++ ys) = noColonTokB ys := by
  induction xs with
  | nil => rfl
  | cons a xs ih =>
    rw [List.cons_append, noColonTokB_cons_ne _ (h a (by simp)),
      ih (fun c hc => h c (by simp [hc]))]

/-- Invariant of the right-to-left colon rewrite: the pending run holds only
word characters, the finished output has no colon-prefixed token, and when
the pending run is empty the finished output is empty or starts with a
non-word character. -/
def replInv (acc : List Char × List Char) : Prop :=
  (∀ c ∈ acc.1, wordChar c = true) ∧ noColonTokB acc.2 = true ∧
    (acc.1 = [] → acc.2 = [] ∨ ∃ d t, acc.2 = d :: t ∧ wordChar d = false)

/-- Each rewrite step preserves the invariant. -/
theorem replInv_step (c : Char) (acc : List Char × List Char) (h : replInv acc) :
    replInv (replColonsStep c acc) := by
  obtain ⟨h1, h2, h3⟩ := h
  unfold replColonsStep
  split_ifs with hw hc
  · refine ⟨?_, h2, ?_⟩
    · intro x hx
      rcases List.mem_cons.mp hx with hx | hx
      · exact hx ▸ hw
      · exact h1 x hx
    · intro hfalse
      exact absurd hfalse (List.cons_ne_nil _ _)
  · refine ⟨by simp, ?_, ?_⟩
    · have hsplit : openBrace :: (acc.1 ++ closeBrace :: acc.2) =
          (openBrace :: acc.1 ++ [closeBrace]) ++ acc.2 := by simp
      rw [hsplit, noColonTokB_append _ _ ?_, h2]
      intro x hx
      rcases List.mem_append.mp hx with hx | hx
      · rcases List.mem_cons.mp hx with hx | hx
        · subst hx; decide
        · exact wordChar_ne_colon (h1 x hx)
      · rcases List.mem_singleton.mp hx with rfl
        decide
    · intro _
      exact Or.inr ⟨openBrace, _, rfl, by decide⟩
  · by_cases hcol : c = ':'
    · have hnil : acc.1 = [] := by
        by_contra hne
        exact hc ⟨hcol, hne⟩
      subst hcol
      refine ⟨by simp, ?_, ?_⟩
      · rw [hnil, List.nil_append]
        rcases h3 hnil with h0 | ⟨d, t, hdt, hd⟩
        · rw [h0]; rfl
        · rw [hdt] at h2 ⊢
          simp [noColonTokB, hd, h2]
      · intro _
        rw [hnil, List.nil_append]
        exact Or.inr ⟨':', _, rfl, by decide⟩
    · refine ⟨by simp, ?_, ?_⟩
      · have hsplit : c :: (acc.1 ++ acc.2) = (c :: acc.1) ++ acc.2 := by simp
        rw [hsplit, noColonTokB_append _ _ ?_, h2]
        intro x hx
        rcases List.mem_cons.mp hx with hx | hx
        · exact hx ▸ hcol
        · exact wordChar_ne_colon (h1 x hx)
      · intro _
        refine Or.inr ⟨c, _, rfl, ?_⟩
        exact Bool.not_eq_true (wordChar c) ▸ hw

/-- The full right fold preserves the invariant. -/
theorem replInv_foldr (l : List Char) : replInv (l.foldr replColonsStep ([], [])) := by
  induction l with
  | nil => exact ⟨by simp, rfl, fun _ => Or.inl rfl⟩
  | cons c rest ih => exact replInv_step c _ ih

/-- After the colon rewrite no colon-prefixed token remains. -/
theorem replColonsList_noColonTok (l : List Char) :
    noColonTokB (replColonsList l) = true := by
  unfold replColonsList
  have h := replInv_foldr l
  obtain ⟨h1, h2, _⟩ := h
  rw [noColonTokB_append _ _ (fun c hc => wordChar_ne_colon (h1 c hc)), h2]

/-- The data-level slash strip of `OpenApiGenerator.combinePaths`. -/
def stripData (l : List Char) : List Char :=
  List.rdropWhile isSlash (l.dropWhile isSlash)

theorem stripSlashes_eq_stripData (s : String) : stripSlashes s = ⟨stripData s.data⟩ := rfl

/-- Stripping leading and trailing slashes is idempotent. -/
theorem stripData_idem (l : List Char) : stripData (stripData l) = stripData l := by
  unfold stripData
  set y := l.dropWhile isSlash with hy
  set z := List.rdropWhile isSlash y with hz
  have hpre : z <+: y := List.rdropWhile_prefix isSlash y
  have hzd : z.dropWhile isSlash = z := by
    rw [List.dropWhile_eq_self_iff]
    intro hl
    obtain ⟨t, ht⟩ := hpre
    have hget : z.get ⟨0, hl⟩ = y.get ⟨0, by rw [← ht, List.length_append]; omega⟩ := by
      simp only [List.get_eq_getElem, ← ht]
      exact (List.getElem_append_left hl).symm
    rw [hget]
    exact List.dropWhile_get_zero_not isSlash l _
  rw [hzd]
  exact List.rdropWhile_idempotent isSlash y

/-- String-level idempotence of the slash strip. -/
theorem stripSlashes_idem (s : String) : stripSlashes (stripSlashes s) = stripSlashes s := by
  rw [stripSlashes_eq_stripData, stripSlashes_eq_stripData]
  exact congrArg String.mk (stripData_idem s.data)

theorem stripSlashes_empty : stripSlashes "" = "" := by decide

/-- The segment-normalisation pipeline is invariant under pre-stripping
every segment. -/
theorem normalizeSegs_map_strip (segs : List String) :
    normalizeSegs (segs.map stripSlashes) = normalizeSegs segs := by
  induction segs with
  | nil => rfl
  | cons s rest ih =>
    by_cases hs : s = ""
    · subst hs
      simpa [normalizeSegs, stripSlashes_empty] using ih
    · by_cases hss : stripSlashes s = ""
      · simpa [normalizeSegs, hs, hss, stripSlashes_idem] using ih
      · have hsne : stripSlashes s ≠ "" := hss
        simpa [normalizeSegs, hs, hss, stripSlashes_idem] using ih

/-- Segments that are already clean pass through normalisation unchanged. -/
theorem normalizeSegs_clean (segs : List String)
    (h : ∀ s ∈ segs, s ≠ "" ∧ stripSlashes s = s) : normalizeSegs segs = segs := by
  induction segs with
  | nil => rfl
  | cons s rest ih =>
    obtain ⟨hne, hstr⟩ := h s (by simp)
    have ih' := ih (fun x hx => h x (by simp [hx]))
    unfold normalizeSegs at ih' ⊢
    rw [List.filter_cons_of_pos (by simp [hne]), List.map_cons, hstr,
      List.filter_cons_of_pos (by simp [hne]), ih']

/-- Truthiness of an optional JavaScript string: present and nonempty. -/
def truthyS : Option String → Bool
  | some s => s ≠ ""
  | none => false

/-- JavaScript `opt || dflt` for strings: the default replaces an absent or
empty value. -/
def orDefault (o : Option String) (d : String) : String :=
  match o with
  | some s => if s ≠ "" then s else d
  | none => d

/-- The constraint bag carried by a validator annotation
(`ValidatorMetadata.constraints` in the source interfaces, as consumed by
`OpenApiGenerator.applyValidatorConstraints` and `convertTypeToSchema`). -/
structure VConstraints where
  type : Option String := none
  format : Option String := none
  minLength : Option Nat := none
  maxLength : Option Nat := none
  pattern : Option String := none
  minimum : Option Int := none
  maximum : Option Int := none
  minItems : Option Nat := none
  maxItems : Option Nat := none
  enumVals : Option (List String) := none
  required : Option Bool := none
deriving DecidableEq

/-- `ValidatorMetadata`: a validator decorator name with its constraints. -/
structure ValidatorMetadata where
  name : String
  constraints : Option VConstraints := none
deriving DecidableEq

mutual
/-- `TypeMetadata` from the source interfaces: the portable resolved type. -/
inductive TypeMetadata where
  | mk (type : String) (isPrimitive isArray isEnum isOptional : Bool)
      (format : Option String)
      (elementType : Option TypeMetadata)
      (enumValues : Option (List String))
      (properties : Option (List PropertyMetadata))
/-- `PropertyMetadata` from the source interfaces. -/
inductive PropertyMetadata where
  | mk (name : String) (type : Option TypeMetadata) (required : Bool)
      (description : Option String)
      (validators : Option (List ValidatorMetadata))
end

def TypeMetadata.type : TypeMetadata → String
  | .mk t _ _ _ _ _ _ _ _ => t

def TypeMetadata.isPrimitive : TypeMetadata → Bool
  | .mk _ p _ _ _ _ _ _ _ => p

def TypeMetadata.isArray : TypeMetadata → Bool
  | .mk _ _ a _ _ _ _ _ _ => a

def TypeMetadata.isEnum : TypeMetadata → Bool
  | .mk _ _ _ e _ _ _ _ _ => e

def TypeMetadata.isOptional : TypeMetadata → Bool
  | .mk _ _ _ _ o _ _ _ _ => o

def TypeMetadata.format : TypeMetadata → Option String
  | .mk _ _ _ _ _ f _ _ _ => f

def TypeMetadata.elementType : TypeMetadata → Option TypeMetadata
  | .mk _ _ _ _ _ _ e _ _ => e

def TypeMetadata.enumValues : TypeMetadata → Option (List String)
  | .mk _ _ _ _ _ _ _ v _ => v

def TypeMetadata.properties : TypeMetadata → Option (List PropertyMetadata)
  | .mk _ _ _ _ _ _ _ _ ps => ps

def PropertyMetadata.name : PropertyMetadata → String
  | .mk n _ _ _ _ => n

def PropertyMetadata.type : PropertyMetadata → Option TypeMetadata
  | .mk _ t _ _ _ => t

def PropertyMetadata.required : PropertyMetadata → Bool
  | .mk _ _ r _ _ => r

def PropertyMetadata.description : PropertyMetadata → Option String
  | .mk _ _ _ d _ => d

def PropertyMetadata.validators : PropertyMetadata → Option (List ValidatorMetadata)
  | .mk _ _ _ _ v => v

/-- `SchemaObject` from the source interfaces, restricted to the fields the
generator ever writes. -/
inductive SchemaObject where
  | mk (type format : Option String)
      (properties : Option (List (String × SchemaObject)))
      (required : Option (List String))
      (items : Option SchemaObject)
      (enumVals : Option (List String))
      (minLength maxLength : Option Nat)
      (pattern : Option String)
      (minimum maximum : Option Int)
      (minItems maxItems : Option Nat)
      (description : Option String)

/-- The empty schema literal `{}`. -/
def SchemaObject.emptyS : SchemaObject :=
  .mk none none none none none none none none none none none none none none

/-- The schema literal `{type: 'object'}`. -/
def SchemaObject.objectS : SchemaObject :=
  .mk (some "object") none none none none none none none none none none none none none

def SchemaObject.type : SchemaObject → Option String
  | .mk t _ _ _ _ _ _ _ _ _ _ _ _ _ => t

def SchemaObject.format : SchemaObject → Option String
  | .mk _ f _ _ _ _ _ _ _ _ _ _ _ _ => f

def SchemaObject.properties : SchemaObject → Option (List (String × SchemaObject))
  | .mk _ _ p _ _ _ _ _ _ _ _ _ _ _ => p

def SchemaObject.required : SchemaObject → Option (List String)
  | .mk _ _ _ r _ _ _ _ _ _ _ _ _ _ => r

def SchemaObject.items : SchemaObject → Option SchemaObject
  | .mk _ _ _ _ i _ _ _ _ _ _ _ _ _ => i

def SchemaObject.enumVals : SchemaObject → Option (List String)
  | .mk _ _ _ _ _ e _ _ _ _ _ _ _ _ => e

/-- The required-name list of a schema, empty when the field is absent. -/
def SchemaObject.requiredD (s : SchemaObject) : List String :=
  s.required.getD []

/-- `OpenApiGenerator.applyValidatorConstraints`: copy the recognised
constraint fields onto the schema.  String-valued constraints are guarded
by JavaScript truthiness (nonempty), numeric ones by an explicit
undefined-check, and the enum constraint by object truthiness (presence). -/
def applyValidatorConstraints (schema : SchemaObject) (v : ValidatorMetadata) : SchemaObject :=
  match v.constraints with
  | none => schema
  | some c =>
    match schema with
    | .mk ty fmt props req items env minL maxL pat minV maxV minI maxI desc =>
      .mk (match c.type with | some t => if t ≠ "" then some t else ty | none => ty)
        (match c.format with | some f => if f ≠ "" then some f else fmt | none => fmt)
        props req items
        (match c.enumVals with | some e => some e | none => env)
        (match c.minLength with | some n => some n | none => minL)
        (match c.maxLength with | some n => some n | none => maxL)
        (match c.pattern with | some p => if p ≠ "" then some p else pat | none => pat)
        (match c.minimum with | some n => some n | none => minV)
        (match c.maximum with | some n => some n | none => maxV)
        (match c.minItems with | some n => some n | none => minI)
        (match c.maxItems with | some n => some n | none => maxI)
        desc

/-- Set the description field of a schema. -/
def SchemaObject.withDescription (schema : SchemaObject) (d : String) : SchemaObject :=
  match schema with
  | .mk ty fmt props req items env minL maxL pat minV maxV minI maxI _ =>
    .mk ty fmt props req items env minL maxL pat minV maxV minI maxI (some d)

/-- A validator marking the property as required:
`v.name === 'IsNotEmpty' || v.constraints?.required === true`
(from `OpenApiGenerator.convertTypeToSchema`). -/
def isRequiredValidator (v : ValidatorMetadata) : Bool :=
  v.name = "IsNotEmpty" ||
    (match v.constraints with
     | some c => c.required = some true
     | none => false)

/-- A validator marking the property as explicitly optional:
`v.name === 'IsOptional' || v.constraints?.required === false`. -/
def isOptionalValidator (v : ValidatorMetadata) : Bool :=
  v.name = "IsOptional" ||
    (match v.constraints with
     | some c => c.required = some false
     | none => false)

/-- The required-check of the object branch of `convertTypeToSchema`:
some required-type validator and no explicit-optionality validator. -/
def requiredPass (p : PropertyMetadata) : Bool :=
  (p.validators.getD []).any isRequiredValidator &&
    !((p.validators.getD []).any isOptionalValidator)

mutual
/-- `OpenApiGenerator.convertTypeToSchema(typeMetadata | undefined)`. -/
def convertTypeToSchema : Option TypeMetadata → SchemaObject
  | none => SchemaObject.objectS
  | some (.mk ty isPrim isArr isEnumB _isOpt fmt elemTy enumVs props) =>
    if isPrim then
      SchemaObject.mk (some ty)
        (match fmt with | some f => if f ≠ "" then some f else none | none => none)
        none none none none none none none none none none none none
    else if isArr && elemTy.isSome then
      SchemaObject.mk (some "array") none none none (some (convertTypeToSchema elemTy))
        none none none none none none none none none
    else if isEnumB && enumVs.isSome then
      SchemaObject.mk (some "string") none none none none enumVs
        none none none none none none none none
    else
      match props with
      | some ps =>
        let r := convertPropsLoop ps
        SchemaObject.mk (some "object") none (some r.1)
          (if r.2 ≠ [] then some r.2 else none)
          none none none none none none none none none none
      | none => SchemaObject.emptyS

/-- The property loop of the object branch of `convertTypeToSchema`: the
per-property schemas in order, and the names collected as required. -/
def convertPropsLoop : List PropertyMetadata → List (String × SchemaObject) × List String
  | [] => ([], [])
  | p :: rest =>
    let r := convertPropsLoop rest
    ((p.name, convertPropertyToSchema p) :: r.1,
      if requiredPass p then p.name :: r.2 else r.2)

/-- `OpenApiGenerator.convertPropertyToSchema`. -/
def convertPropertyToSchema (p : PropertyMetadata) : SchemaObject :=
  match p with
  | .mk _name ty _req desc validators =>
    let base := match ty with
      | some t => convertTypeToSchema (some t)
      | none => SchemaObject.emptyS
    let withVal := (validators.getD []).foldl applyValidatorConstraints base
    match desc with
    | some d => if d ≠ "" then withVal.withDescription d else withVal
    | none => withVal
end

/-- `DtoMetadata` from the source interfaces. -/
structure DtoMetadata where
  name : String
  properties : List PropertyMetadata
  description : Option String := none

/-- `OpenApiGenerator.convertDtoToSchema`: object schema from a DTO, whose
required list comes from the extracted `required` flags. -/
def convertDtoToSchema (dto : DtoMetadata) : SchemaObject :=
  let props := dto.properties.map (fun p => (p.name, convertPropertyToSchema p))
  let req := (dto.properties.filter (fun p => p.required)).map (·.name)
  SchemaObject.mk (some "object") none (some props)
    (if req ≠ [] then some req else none)
    none none none none none none none none none
    (match dto.description with | some d => if d ≠ "" then some d else none | none => none)

/-- `ParamMetadata` from the source interfaces: an extracted route
parameter.  `inLoc` renders the `in` field. -/
structure ParamMetadata where
  name : String
  inLoc : String
  type : Option TypeMetadata := none
  required : Bool
  description : Option String := none

/-- `ParameterObject` of the assembled specification. -/
structure ParameterObject where
  name : String
  inLoc : String
  required : Bool
  schema : SchemaObject
  description : Option String

/-- The static facts `RouteScanner.buildParamMetadata` reads off a method
parameter declaration. -/
structure ParamDecl where
  paramName : String
  typeName : String
  isString : Bool := false
  isNumber : Bool := false
  isBoolean : Bool := false
  isArray : Bool := false
  isEnum : Bool := false
  hasQuestionToken : Bool := false
  hasInitializer : Bool := false

/-- `replace(/['"]/g, '')`: drop every quote character. -/
def stripQuotes (s : String) : String :=
  ⟨s.data.filter (fun c => c ≠ Char.ofNat 39 ∧ c ≠ Char.ofNat 34)⟩

/-- `RouteScanner.buildParamMetadata(param, decorator, decoratorName)`. -/
def buildParamMetadata (p : ParamDecl) (decoratorArgs : List String)
    (decoratorName : String) : ParamMetadata :=
  let paramName := match decoratorArgs with
    | a :: _ => stripQuotes a
    | [] => p.paramName
  let location := if decoratorName = "Param" then "path"
    else if decoratorName = "Headers" then "header"
    else "query"
  { name := paramName
    inLoc := location
    type := some (.mk p.typeName (p.isString || p.isNumber || p.isBoolean)
      p.isArray p.isEnum (p.hasQuestionToken || p.hasInitializer) none none none none)
    required := location = "path"
    description := none }

/-- The parameter list built by `OpenApiGenerator.createParameters`: keep
path and query parameters only. -/
def createParametersList (params : List ParamMetadata) : List ParameterObject :=
  (params.filter (fun p => p.inLoc = "path" || p.inLoc = "query")).map
    (fun p => ParameterObject.mk p.name p.inLoc ((p.inLoc = "path") || p.required)
      (convertTypeToSchema p.type) p.description)

/-- `OpenApiGenerator.createParameters`: the kept list, absent when it is
empty. -/
def createParameters (params : List ParamMetadata) : Option (List ParameterObject) :=
  if (createParametersList params).isEmpty then none
  else some (createParametersList params)

/-- `RouteMetadata` from the source interfaces. -/
structure RouteMetadata where
  name : String
  httpMethod : String
  path : String
  fullPath : String := ""
  description : Option String := none
  params : Option (List ParamMetadata) := none
  requestBody : Option DtoMetadata := none
  responseType : Option DtoMetadata := none
  guards : List String := []
  isPublic : Bool := false

/-- `ControllerMetadata` from the source interfaces. -/
structure ControllerMetadata where
  name : String
  path : String
  filePath : String := ""
  category : String
  version : Option String := none
  description : Option String := none
  routes : List RouteMetadata := []
  guards : List String := []

/-- One response entry of an operation. -/
structure ResponseObject where
  description : String
  schema : Option SchemaObject

/-- The request-body block of an operation. -/
structure RequestBodyObject where
  required : Bool
  schema : SchemaObject

/-- `OperationObject` of the assembled specification.  `security` models
`[{bearerAuth: []}]` as the list of scheme names. -/
structure OperationObject where
  summary : String
  description : Option String
  tags : Option (List String)
  operationId : String
  parameters : Option (List ParameterObject)
  requestBody : Option RequestBodyObject
  responses : List (String × ResponseObject)
  security : Option (List String)

/-- `OpenApiGenerator.createOperation(route, controller)`. -/
def createOperation (route : RouteMetadata) (c : ControllerMetadata) : OperationObject :=
  { summary := orDefault route.description (route.httpMethod ++ " " ++ route.path)
    description := route.description
    tags := if c.category ≠ "" then some [c.category] else none
    operationId := c.name ++ "_" ++ route.name
    parameters := createParameters (route.params.getD [])
    requestBody :=
      if route.httpMethod = "POST" ∨ route.httpMethod = "PUT" ∨ route.httpMethod = "PATCH" then
        route.requestBody.map (fun d => RequestBodyObject.mk true (convertDtoToSchema d))
      else none
    responses := [
      ("200", ⟨"Successful response", route.responseType.map convertDtoToSchema⟩),
      ("400", ⟨"Bad request", none⟩),
      ("401", ⟨"Unauthorized", none⟩),
      ("500", ⟨"Internal server error", none⟩)]
    security := if route.isPublic then none else some ["bearerAuth"] }

/-- `PathItemObject`: one operation slot per HTTP verb. -/
structure PathItemObject where
  get : Option OperationObject := none
  post : Option OperationObject := none
  put : Option OperationObject := none
  patch : Option OperationObject := none
  delete : Option OperationObject := none
  optionsOp : Option OperationObject := none
  head : Option OperationObject := none

/-- The empty path item `{}`. -/
def emptyPathItem : PathItemObject := {}

/-- The method switch of `OpenApiGenerator.generatePaths`: store the
operation under its lower-cased verb; unknown verbs store nothing. -/
def setOperation (item : PathItemObject) (method : String) (op : OperationObject) :
    PathItemObject :=
  if method = "get" then { item with get := some op }
  else if method = "post" then { item with post := some op }
  else if method = "put" then { item with put := some op }
  else if method = "patch" then { item with patch := some op }
  else if method = "delete" then { item with delete := some op }
  else if method = "options" then { item with optionsOp := some op }
  else if method = "head" then { item with head := some op }
  else item

/-- Lower-case a string character-wise (`String.prototype.toLowerCase` on
the ASCII verbs used here). -/
def lowerStr (s : String) : String := ⟨s.data.map Char.toLower⟩

/-- Upper-case a string character-wise (`String.prototype.toUpperCase`). -/
def upperStr (s : String) : String := ⟨s.data.map Char.toUpper⟩

/-- `VersioningConfig` from the options interface (`prefixOpt` renders the
`prefix` field). -/
structure VersioningConfig where
  enabled : Bool
  prefixOpt : Option String := none
  fallback : Option String := none

/-- A configured server entry. -/
structure ServerConfig where
  url : String
  description : String
deriving DecidableEq

/-- A tag of the assembled specification. -/
structure TagObject where
  name : String
  description : String
deriving DecidableEq

/-- `AutoDocsOptions` from the options interface, restricted to the fields
the embedded pipeline reads. -/
structure AutoDocsOptions where
  title : String
  version : String
  description : Option String := none
  globalPrefix : Option String := none
  servers : Option (List ServerConfig) := none
  includeSecurity : Option Bool := none
  versioning : Option VersioningConfig := none
  categoryMapping : Option (List (String × String)) := none
  baseServerURL : Option String := none

/-- `options.versioning?.enabled`. -/
def versioningEnabledB (o : AutoDocsOptions) : Bool :=
  match o.versioning with
  | some v => v.enabled
  | none => false

/-- `options.versioning.prefix || '/api'`. -/
def versionPfxOf (o : AutoDocsOptions) : String :=
  match o.versioning with
  | some v => orDefault v.prefixOpt "/api"
  | none => "/api"

/-- `options.versioning?.fallback`. -/
def fallbackOf (o : AutoDocsOptions) : Option String :=
  o.versioning.bind (·.fallback)

/-- The path choice of `OpenApiGenerator.generatePaths`, before the
placeholder rewrite: detected version, else configured fallback, else
global prefix. -/
def routeRawPath (o : AutoDocsOptions) (c : ControllerMetadata) (r : RouteMetadata) : String :=
  if versioningEnabledB o && truthyS c.version then
    combinePaths [versionPfxOf o, c.version.getD "", c.path, r.path]
  else if versioningEnabledB o && truthyS (fallbackOf o) then
    combinePaths [(fallbackOf o).getD "", c.path, r.path]
  else
    combinePaths [(o.globalPrefix).getD "", c.path, r.path]

/-- The key a route's operation is stored under: the chosen path after the
colon-placeholder rewrite. -/
def routeKey (o : AutoDocsOptions) (c : ControllerMetadata) (r : RouteMetadata) : String :=
  replaceColons (routeRawPath o c r)

/-- `paths[fullPath]` update: create the entry at the end when the key is
absent, then apply the mutation in place. -/
def updateAssoc (paths : List (String × PathItemObject)) (key : String)
    (f : PathItemObject → PathItemObject) : List (String × PathItemObject) :=
  if (paths.lookup key).isSome then
    paths.map (fun kv => if kv.1 = key then (kv.1, f kv.2) else kv)
  else paths ++ [(key, f emptyPathItem)]

/-- The inner route loop of `OpenApiGenerator.generatePaths`. -/
def addRoutes (o : AutoDocsOptions) (c : ControllerMetadata) :
    List RouteMetadata → List (String × PathItemObject) → List (String × PathItemObject)
  | [], acc => acc
  | r :: rest, acc =>
    addRoutes o c rest (updateAssoc acc (routeKey o c r)
      (fun item => setOperation item (lowerStr r.httpMethod) (createOperation r c)))

/-- The outer controller loop of `OpenApiGenerator.generatePaths`. -/
def generatePathsAux (o : AutoDocsOptions) :
    List ControllerMetadata → List (String × PathItemObject) → List (String × PathItemObject)
  | [], acc => acc
  | c :: rest, acc => generatePathsAux o rest (addRoutes o c c.routes acc)

/-- `OpenApiGenerator.generatePaths(controllers, options)`. -/
def generatePaths (controllers : List ControllerMetadata) (o : AutoDocsOptions) :
    List (String × PathItemObject) :=
  generatePathsAux o controllers []

/-- Insertion step of the sort used for tags and versions. -/
def insertLe {α : Type} (le : α → α → Bool) (a : α) : List α → List α
  | [] => [a]
  | b :: rest => if le a b then a :: b :: rest else b :: insertLe le a rest

/-- Insertion sort, modelling `Array.prototype.sort`. -/
def sortLe {α : Type} (le : α → α → Bool) : List α → List α
  | [] => []
  | a :: rest => insertLe le a (sortLe le rest)

/-- `OpenApiGenerator.generateTags`: one tag per first occurrence of a
nonempty category, described by the controller or a generated default. -/
def generateTagsAux (seen : List String) : List ControllerMetadata → List TagObject
  | [] => []
  | c :: rest =>
    if c.category ≠ "" ∧ c.category ∉ seen then
      ⟨c.category, orDefault c.description (c.category ++ " related endpoints")⟩ ::
        generateTagsAux (c.category :: seen) rest
    else generateTagsAux seen rest

/-- The version set of `OpenApiGenerator.generateDefaultServers`: distinct
truthy controller versions in encounter order. -/
def collectVersionsAux (acc : List String) : List ControllerMetadata → List String
  | [] => acc
  | c :: rest =>
    match c.version with
    | some v =>
      if v ≠ "" ∧ v ∉ acc then collectVersionsAux (acc ++ [v]) rest
      else collectVersionsAux acc rest
    | none => collectVersionsAux acc rest

/-- `OpenApiGenerator.generateDefaultServers(options, controllers)`. -/
def generateDefaultServers (o : AutoDocsOptions) (controllers : List ControllerMetadata) :
    List ServerConfig :=
  let servers :=
    if versioningEnabledB o then
      let versions := collectVersionsAux [] controllers
      if versions ≠ [] then
        (sortLe (fun a b => decide (a ≤ b)) versions).map
          (fun v => ServerConfig.mk (versionPfxOf o ++ "/" ++ v) ("API " ++ upperStr v))
      else
        match fallbackOf o with
        | some f => if f ≠ "" then [ServerConfig.mk f "API Server"] else []
        | none => []
    else
      match o.globalPrefix with
      | some g => if g ≠ "" then [ServerConfig.mk g "API Server"] else []
      | none => []
  if servers.isEmpty then
    [ServerConfig.mk ((o.baseServerURL).getD "/")
      (if truthyS o.baseServerURL then "Base Server"
       else "Current Server (editable in dropdown)")]
  else servers

/-- The bearer security scheme emitted by `generate`. -/
structure BearerScheme where
  type : String
  scheme : String
  bearerFormat : String
  description : String
deriving DecidableEq

/-- `OpenApiSpec`: the assembled specification document. -/
structure OpenApiSpec where
  openapi : String
  title : String
  version : String
  description : String
  servers : List ServerConfig
  tags : List TagObject
  paths : List (String × PathItemObject)
  securitySchemes : Option BearerScheme

/-- `OpenApiGenerator.generate(controllers, options)`. -/
def generate (controllers : List ControllerMetadata) (o : AutoDocsOptions) : OpenApiSpec :=
  { openapi := "3.0.0"
    title := o.title
    version := o.version
    description := orDefault o.description "Auto-generated API documentation"
    servers := match o.servers with
      | some s => s
      | none => generateDefaultServers o controllers
    tags := sortLe (fun a b => decide (a.name ≤ b.name)) (generateTagsAux [] controllers)
    paths := generatePaths controllers o
    securitySchemes :=
      if o.includeSecurity ≠ some false then
        some ⟨"http", "bearer", "JWT", "Enter your JWT token in the format: Bearer {token}"⟩
      else none }

/-- `category.toLowerCase().replace(/[\s-]+/g, '')` from
`CategoryGenerator.findMappedCategory`. -/
def normalizeCat (s : String) : String :=
  ⟨(s.data.filter (fun c => ¬(c.isWhitespace ∨ c = '-'))).map Char.toLower⟩

/-- The `Object.entries` loop of `CategoryGenerator.findMappedCategory`:
for each mapping entry in order, return its value on a normalized exact
match or a normalized prefix match. -/
def findCategoryLoop (nc : String) : List (String × String) → Option String
  | [] => none
  | (k, v) :: rest =>
    if nc = normalizeCat k then some v
    else if (normalizeCat k).data.isPrefixOf nc.data then some v
    else findCategoryLoop nc rest

/-- `CategoryGenerator.findMappedCategory(category, mapping)`.  The exact
lookup returns early only when its value is truthy (nonempty); otherwise
the normalized loop runs. -/
def findMappedCategory (category : String) (mapping : List (String × String)) :
    Option String :=
  match mapping.lookup category with
  | some v => if v ≠ "" then some v else findCategoryLoop (normalizeCat category) mapping
  | none => findCategoryLoop (normalizeCat category) mapping

/-- `CategoryGenerator.applyCategoryMapping(controllers, categoryMapping?)`:
`mappedCategory || controller.category` keeps the original on a missing or
empty mapped value. -/
def applyCategoryMapping (controllers : List ControllerMetadata)
    (mapping : Option (List (String × String))) : List ControllerMetadata :=
  match mapping with
  | none => controllers
  | some m =>
    controllers.map (fun c =>
      { c with category :=
          match findMappedCategory c.category m with
          | some v => if v ≠ "" then v else c.category
          | none => c.category })

/-- The mutable fields of `AutoDocsService`. -/
structure ServiceState where
  openApiSpec : Option OpenApiSpec := none
  controllers : List ControllerMetadata := []
  lastScanTime : Option Nat := none

/-- `AutoDocsService.scan`, with the scanner's result and the wall clock
passed in as inputs: apply the configured category mapping, store the
controllers, generate and store the specification, stamp the scan time. -/
def serviceScan (scanned : List ControllerMetadata) (o : AutoDocsOptions)
    (time : Nat) (_st : ServiceState) : ServiceState :=
  let controllers :=
    match o.categoryMapping with
    | some m => applyCategoryMapping scanned (some m)
    | none => scanned
  { openApiSpec := some (generate controllers o)
    controllers := controllers
    lastScanTime := some time }

/-- `AutoDocsService.getOpenApiSpec`: throw when no specification has been
generated, otherwise return it, leaving the state unchanged. -/
def getOpenApiSpec (st : ServiceState) : Except String (OpenApiSpec × ServiceState) :=
  match st.openApiSpec with
  | none => .error "OpenAPI spec not generated. Call initialize() first."
  | some s => .ok (s, st)

/-- A reference to a source type as seen by the resolver: a primitive, an
array, or a named declared structure. -/
inductive TypeRef where
  | prim (kind : String)
  | arr (elem : TypeRef)
  | named (name : String)
deriving DecidableEq

/-- A resolved type descriptor with an explicit terminating placeholder for
re-entered named types. -/
inductive TypeDesc where
  | primitive (kind : String)
  | array (elem : TypeDesc)
  | object (props : List (String × TypeDesc))
  | reference (name : String)

/-- Modelled from the spec: the Type Resolver's named-structure resolution
with its cycle guard (the `DtoAnalyzer` source is not part of the provided
tree).  The spec's set of in-progress named-type identities is represented
by its complement `allowed`, the named types that may still be entered;
re-entering an identity already in progress yields a terminating
`reference` placeholder instead of recursing. -/
def resolveType (env : List (String × List (String × TypeRef)))
    (allowed : List String) : TypeRef → TypeDesc
  | .prim k => .primitive k
  | .arr t => .array (resolveType env allowed t)
  | .named n =>
    if n ∈ allowed then
      match env.lookup n with
      | some props =>
        .object (props.map (fun pr => (pr.1, resolveType env (allowed.filter (· ≠ n)) pr.2)))
      | none => .reference n
    else .reference n
termination_by t => (allowed.length, sizeOf t)
decreasing_by
  all_goals simp_wf
  · exact Prod.Lex.right _ (by omega)
  · apply Prod.Lex.left
    exact List.length_filter_lt_length_iff_exists.mpr ⟨_, by assumption, by simp⟩

/-- The entry loop of `findMappedCategory` is the first entry whose
normalized key is a prefix of the normalized category (a normalized exact
match being a prefix match as well). -/
theorem findCategoryLoop_eq_find (nc : String) (m : List (String × String)) :
    findCategoryLoop nc m
      = (m.find? (fun kv => (normalizeCat kv.1).data.isPrefixOf nc.data)).map Prod.snd := by
  induction m with
  | nil => rfl
  | cons kv rest ih =>
    obtain ⟨k, v⟩ := kv
    by_cases h1 : nc = normalizeCat k
    · have hself : (normalizeCat k).data.isPrefixOf nc.data = true := by
        rw [← h1]
        exact List.isPrefixOf_iff_prefix.mpr (List.prefix_refl _)
      simp [findCategoryLoop, h1, hself]
    · by_cases h2 : (normalizeCat k).data.isPrefixOf nc.data = true
      · simp [findCategoryLoop, h1, h2]
      · simp [findCategoryLoop, h1, h2, ih]

/-- The required-name component of the property loop is the name list of
the properties passing the required check. -/
theorem convertPropsLoop_required (props : List PropertyMetadata) :
    (convertPropsLoop props).2 = (props.filter requiredPass).map PropertyMetadata.name := by
  induction props with
  | nil => rfl
  | cons p rest ih =>
    by_cases h : requiredPass p = true
    · rw [convertPropsLoop, List.filter_cons_of_pos h, List.map_cons]
      simp [h, ih]
    · rw [convertPropsLoop, List.filter_cons_of_neg (by simpa using h)]
      simp [h, ih]

/-- Membership in the required-name list decides the required check, when
property names are distinct. -/
theorem mem_requiredNames_iff (props : List PropertyMetadata) (p : PropertyMetadata)
    (hp : p ∈ props) (hn : (props.map PropertyMetadata.name).Nodup) :
    (p.name ∈ (props.filter requiredPass).map PropertyMetadata.name)
      ↔ requiredPass p = true := by
  induction props with
  | nil => cases hp
  | cons q rest ih =>
    rw [List.map_cons, List.nodup_cons] at hn
    obtain ⟨hq, hrest⟩ := hn
    rcases List.mem_cons.mp hp with rfl | hp'
    · by_cases h : requiredPass p = true
      · rw [List.filter_cons_of_pos h, List.map_cons]
        simp [h]
      · rw [List.filter_cons_of_neg (by simpa using h)]
        refine ⟨fun hmem => ?_, fun habs => absurd habs h⟩
        obtain ⟨x, hx, hxe⟩ := List.mem_map.mp hmem
        exact (hq (hxe ▸ List.mem_map_of_mem _ (List.mem_of_mem_filter hx))).elim
    · have hne : p.name ≠ q.name := fun he => hq (he ▸ List.mem_map_of_mem _ hp')
      by_cases h : requiredPass q = true
      · rw [List.filter_cons_of_pos h, List.map_cons]
        simp only [List.mem_cons, hne, false_or]
        exact ih hp' hrest
      · rw [List.filter_cons_of_neg (by simpa using h)]
        exact ih hp' hrest

/-- A present-iff-nonempty optional list read with an empty default gives
back the list. -/
theorem ifNonempty_getD (l : List String) :
    (if l ≠ [] then some l else none).getD [] = l := by
  by_cases h : l = [] <;> simp [h]

/-- The keys after a `paths[fullPath]` update are the old keys, possibly
with the updated key appended. -/
theorem mem_keys_updateAssoc {paths : List (String × PathItemObject)} {key k : String}
    {f : PathItemObject → PathItemObject}
    (h : k ∈ (updateAssoc paths key f).map Prod.fst) :
    k ∈ paths.map Prod.fst ∨ k = key := by
  unfold updateAssoc at h
  split_ifs at h
  · left
    rw [List.map_map] at h
    have heq : paths.map (Prod.fst ∘ fun kv => if kv.1 = key then (kv.1, f kv.2) else kv)
        = paths.map Prod.fst := by
      apply List.map_congr_left
      intro kv _
      by_cases hkv : kv.1 = key <;> simp [hkv]
    rwa [heq] at h
  · rw [List.map_append] at h
    rcases List.mem_append.mp h with h | h
    · exact Or.inl h
    · simp at h
      exact Or.inr h

/-- Every key produced by the route loop satisfies a property that holds of
the accumulator's keys and of every route key. -/
theorem addRoutes_keys (o : AutoDocsOptions) (c : ControllerMetadata)
    (P : String → Prop) (hP : ∀ r, P (routeKey o c r)) :
    ∀ (routes : List RouteMetadata) (acc : List (String × PathItemObject)),
      (∀ k ∈ acc.map Prod.fst, P k) →
      ∀ k ∈ (addRoutes o c routes acc).map Prod.fst, P k := by
  intro routes
  induction routes with
  | nil => intro acc hacc k hk; exact hacc k hk
  | cons r rest ih =>
    intro acc hacc k hk
    refine ih _ ?_ k hk
    intro k' hk'
    rcases mem_keys_updateAssoc hk' with h | h
    · exact hacc k' h
    · exact h ▸ hP r

/-- Every key produced by the controller loop satisfies a property that
holds of the accumulator's keys and of every route key. -/
theorem generatePathsAux_keys (o : AutoDocsOptions) (P : String → Prop)
    (hP : ∀ c r, P (routeKey o c r)) :
    ∀ (controllers : List ControllerMetadata) (acc : List (String × PathItemObject)),
      (∀ k ∈ acc.map Prod.fst, P k) →
      ∀ k ∈ (generatePathsAux o controllers acc).map Prod.fst, P k := by
  intro controllers
  induction controllers with
  | nil => intro acc hacc k hk; exact hacc k hk
  | cons c rest ih =>
    intro acc hacc k hk
    exact ih _ (addRoutes_keys o c P (hP c) c.routes acc hacc) k hk

/-- C3.  Every colon-prefixed placeholder is rewritten to brace form as the
final step after path combination: the route key is the colon rewrite of
the combined path, the two-placeholder example converts both in order, and
no key of the generated paths map retains a colon-prefixed token. -/
theorem c3_placeholder_conversion :
    (∀ (controllers : List ControllerMetadata) (o : AutoDocsOptions),
      ∀ k ∈ (generatePaths controllers o).map Prod.fst, noColonTokS k = true)
  ∧ replaceColons ":userId/resource/:resourceId" = "{userId}/resource/{resourceId}"
  ∧ (∀ (o : AutoDocsOptions) (c : ControllerMetadata) (r : RouteMetadata),
      routeKey o c r = replaceColons (routeRawPath o c r)) := by
  refine ⟨?_, by decide, fun _ _ _ => rfl⟩
  intro controllers o k hk
  refine generatePathsAux_keys o (fun k => noColonTokS k = true) ?_ controllers [] ?_ k hk
  · intro c r
    exact replColonsList_noColonTok (routeRawPath o c r).data
  · intro k' hk'
    simp at hk'

/-- Closed instance of C3's quantified parts at a concrete input. -/
theorem c3_witness :
    noColonTokS "admin/{id}" = true
  ∧ routeKey { title := "t", version := "1" }
      { name := "C", path := "admin", category := "Admin" }
      { name := "g", httpMethod := "GET", path := ":id" }
    = replaceColons (routeRawPath { title := "t", version := "1" }
      { name := "C", path := "admin", category := "Admin" }
      { name := "g", httpMethod := "GET", path := ":id" }) :=
  ⟨c3_placeholder_conversion.1
      [{ name := "C", path := "admin", category := "Admin",
         routes := [{ name := "g", httpMethod := "GET", path := ":id" }] }]
      { title := "t", version := "1" } "admin/{id}" (by decide),
   c3_placeholder_conversion.2.2 _ _ _⟩

/-- C4 counterexample: the assembler's `combinePaths` maps an all-empty
combination to the empty string, not to the root path. -/
theorem c4_counterexample :
    combinePaths ["", ""] = "" ∧ combinePaths ["", ""] ≠ "/" := by
  exact ⟨rfl, by decide⟩

/-- C4 as amended.  Path combination is normalization-idempotent: combining
segments equals combining their stripped forms; clean nonempty segments are
joined with exactly one separator; but an all-empty combination yields the
empty string in the assembler's `combinePaths`, while the scanner's
two-segment `combinePaths` yields the root path. -/
theorem c4_combine_normalization :
    (∀ segs : List String, combinePaths (segs.map stripSlashes) = combinePaths segs)
  ∧ (∀ segs : List String, (∀ s ∈ segs, s ≠ "" ∧ stripSlashes s = s) →
      combinePaths segs = joinSlash segs)
  ∧ combinePaths ["admin/", "/profile"] = combinePaths ["admin", "profile"]
  ∧ combinePaths ["", ""] = ""
  ∧ scannerCombinePaths "" "" = "/" := by
  refine ⟨?_, ?_, by decide, rfl, by decide⟩
  · intro segs
    unfold combinePaths
    rw [normalizeSegs_map_strip]
  · intro segs h
    unfold combinePaths
    rw [normalizeSegs_clean segs h]

/-- Closed instance of C4's quantified parts at concrete inputs. -/
theorem c4_witness :
    combinePaths (["a//", "/b"].map stripSlashes) = combinePaths ["a//", "/b"]
  ∧ (∀ s ∈ (["a", "b"] : List String), s ≠ "" ∧ stripSlashes s = s)
  ∧ combinePaths ["a", "b"] = joinSlash ["a", "b"] :=
  ⟨c4_combine_normalization.1 ["a//", "/b"], by decide,
   c4_combine_normalization.2.1 ["a", "b"] (by decide)⟩

/-- The one controller of the spec's round-trip scenario. -/
def c1Controller : ControllerMetadata :=
  { name := "AdminController", path := "admin", category := "Admin", version := some "v1",
    routes := [{ name := "getProfile", httpMethod := "GET", path := "profile" }] }

/-- The options of the spec's round-trip scenario: versioning enabled with
prefix `/api`. -/
def c1Options : AutoDocsOptions :=
  { title := "Test API", version := "1.0",
    versioning := some { enabled := true, prefixOpt := some "/api" } }

/-- C1 counterexample: in the round-trip scenario the paths map holds the
key `api/v1/admin/profile` (no leading slash), so the claimed key
`/api/v1/admin/profile` is absent. -/
theorem c1_counterexample :
    (generate [c1Controller] c1Options).paths.map Prod.fst = ["api/v1/admin/profile"]
  ∧ ((generate [c1Controller] c1Options).paths.lookup "/api/v1/admin/profile").isNone = true
  ∧ ("api/v1/admin/profile" : String) ≠ "/api/v1/admin/profile" :=
  ⟨rfl, rfl, by decide⟩

/-- C1 as amended.  The round-trip scenario yields a paths map with exactly
the key `api/v1/admin/profile` holding a GET operation, exactly one tag
named `Admin`, and exactly the server list
`[{url: "/api/v1", description: "API V1"}]`. -/
theorem c1_roundtrip :
    (generate [c1Controller] c1Options).paths.map Prod.fst = ["api/v1/admin/profile"]
  ∧ ((generate [c1Controller] c1Options).paths.lookup "api/v1/admin/profile").map
      (fun it => it.get.isSome) = some true
  ∧ (generate [c1Controller] c1Options).tags = [⟨"Admin", "Admin related endpoints"⟩]
  ∧ (generate [c1Controller] c1Options).servers = [⟨"/api/v1", "API V1"⟩] :=
  ⟨rfl, rfl, rfl, rfl⟩

/-- C2.  For a controller and route, the single generated key is the colon
rewrite of the chosen raw path; when versioning is enabled and a (nonempty)
version was detected the version rule applies whatever the fallback is;
with no version but a configured fallback the fallback rule applies; and
otherwise the global-prefix rule applies. -/
theorem c2_versioning_precedence :
    ∀ (o : AutoDocsOptions) (c : ControllerMetadata) (r : RouteMetadata),
      ((generatePaths [{ c with routes := [r] }] o).map Prod.fst
        = [replaceColons (routeRawPath o c r)])
    ∧ (∀ v, versioningEnabledB o = true → c.version = some v → v ≠ "" →
        routeRawPath o c r = combinePaths [versionPfxOf o, v, c.path, r.path])
    ∧ (∀ f, versioningEnabledB o = true → (c.version = none ∨ c.version = some "") →
        fallbackOf o = some f → f ≠ "" →
        routeRawPath o c r = combinePaths [f, c.path, r.path])
    ∧ ((versioningEnabledB o = false ∨
        ((c.version = none ∨ c.version = some "") ∧
          (fallbackOf o = none ∨ fallbackOf o = some ""))) →
        routeRawPath o c r = combinePaths [(o.globalPrefix).getD "", c.path, r.path]) := by
  intro o c r
  refine ⟨rfl, ?_, ?_, ?_⟩
  · intro v h1 h2 h3
    unfold routeRawPath
    rw [if_pos (by simp [h1, h2, truthyS, h3]), h2]
    rfl
  · intro f h1 h2 h3 h4
    unfold routeRawPath
    have hv : truthyS c.version = false := by
      rcases h2 with h2 | h2 <;> simp [h2, truthyS]
    rw [if_neg (by simp [hv]), if_pos (by simp [h1, h3, truthyS, h4]), h3]
    rfl
  · intro h
    unfold routeRawPath
    rcases h with h | ⟨hv, hf⟩
    · rw [if_neg (by simp [h]), if_neg (by simp [h])]
    · have hv' : truthyS c.version = false := by
        rcases hv with hv | hv <;> simp [hv, truthyS]
      have hf' : truthyS (fallbackOf o) = false := by
        rcases hf with hf | hf <;> simp [hf, truthyS]
      rw [if_neg (by simp [hv']), if_neg (by simp [hf'])]

/-- The controller of C2's precedence witness: a detected version together
with a differing configured fallback. -/
def c2Controller : ControllerMetadata :=
  { name := "AdminController", path := "admin", category := "Admin", version := some "v1",
    routes := [] }

/-- Options for C2's precedence witness: versioning enabled, prefix `/api`,
fallback `/legacy`. -/
def c2Options : AutoDocsOptions :=
  { title := "Test API", version := "1.0",
    versioning := some { enabled := true, prefixOpt := some "/api", fallback := some "/legacy" } }

/-- Closed instance of C2 at a concrete input: with both a detected version
and a configured fallback, the detected-version rule wins. -/
theorem c2_witness :
    versioningEnabledB c2Options = true
  ∧ c2Controller.version = some "v1"
  ∧ fallbackOf c2Options = some "/legacy"
  ∧ routeRawPath c2Options c2Controller { name := "g", httpMethod := "GET", path := "profile" }
      = combinePaths [versionPfxOf c2Options, "v1", c2Controller.path, "profile"]
  ∧ routeRawPath c2Options c2Controller { name := "g", httpMethod := "GET", path := "profile" }
      = "api/v1/admin/profile" :=
  ⟨rfl, rfl, rfl,
   (c2_versioning_precedence c2Options c2Controller
      { name := "g", httpMethod := "GET", path := "profile" }).2.1 "v1" rfl rfl (by decide),
   rfl⟩

/-- The lookup procedure as the claim words it (spec-side definition for
comparison): three sequential passes over the whole mapping — exact key
match, then case/space/hyphen-insensitive exact match, then normalized
prefix match. -/
def specLookupSequential (category : String) (mapping : List (String × String)) :
    Option String :=
  match mapping.lookup category with
  | some v => some v
  | none =>
    let nc := normalizeCat category
    match mapping.find? (fun kv => normalizeCat kv.1 = nc) with
    | some kv => some kv.2
    | none =>
      (mapping.find? (fun kv => (normalizeCat kv.1).data.isPrefixOf nc.data)).map Prod.snd

/-- C5 counterexample: with category `Admin Auth` and the ordered mapping
`admin ↦ A, adminauth ↦ B`, the claimed pass order (normalized exact match
before any prefix match) would give `B`, but the code's single entry-order
pass returns `A` because the earlier key `admin` already prefix-matches. -/
theorem c5_counterexample :
    findMappedCategory "Admin Auth" [("admin", "A"), ("adminauth", "B")] = some "A"
  ∧ specLookupSequential "Admin Auth" [("admin", "A"), ("adminauth", "B")] = some "B"
  ∧ (some "A" : Option String) ≠ some "B" :=
  ⟨rfl, rfl, by decide⟩

/-- C5 as amended.  An exact key match with a nonempty value wins;
otherwise a single pass over the mapping entries in order returns the first
value whose normalized key equals or is a prefix of the normalized
category; the found value replaces the category unless it is empty, and
with no match the controller keeps its original category. -/
theorem c5_category_lookup :
    ∀ (category : String) (m : List (String × String)) (c : ControllerMetadata),
      (∀ v, m.lookup category = some v → v ≠ "" → findMappedCategory category m = some v)
    ∧ ((m.lookup category = none ∨ m.lookup category = some "") →
        findMappedCategory category m
          = (m.find? (fun kv =>
              (normalizeCat kv.1).data.isPrefixOf (normalizeCat category).data)).map Prod.snd)
    ∧ (∀ v, findMappedCategory c.category m = some v → v ≠ "" →
        applyCategoryMapping [c] (some m) = [{ c with category := v }])
    ∧ ((findMappedCategory c.category m = none ∨ findMappedCategory c.category m = some "") →
        applyCategoryMapping [c] (some m) = [c]) := by
  intro category m c
  refine ⟨?_, ?_, ?_, ?_⟩
  · intro v h hv
    unfold findMappedCategory
    rw [h]
    simp [hv]
  · intro h
    unfold findMappedCategory
    rcases h with h | h
    · rw [h, findCategoryLoop_eq_find]
    · rw [h]
      simp [findCategoryLoop_eq_find]
  · intro v h hv
    unfold applyCategoryMapping
    simp [h, hv]
  · intro h
    unfold applyCategoryMapping
    rcases h with h | h <;> simp [h]

/-- Closed instance of C5's amended rules at concrete inputs. -/
theorem c5_witness :
    ([("useradmin", "X")].lookup "useradmin" = some "X"
      ∧ findMappedCategory "useradmin" [("useradmin", "X")] = some "X")
  ∧ (findMappedCategory "Other" [("useradmin", "X")] = none
      ∧ applyCategoryMapping [{ name := "C", path := "p", category := "Other" }]
          (some [("useradmin", "X")]) = [{ name := "C", path := "p", category := "Other" }]) :=
  ⟨⟨rfl, (c5_category_lookup "useradmin" [("useradmin", "X")]
      { name := "C", path := "p", category := "Other" }).1 "X" rfl (by decide)⟩,
   ⟨rfl, (c5_category_lookup "Other" [("useradmin", "X")]
      { name := "C", path := "p", category := "Other" }).2.2.2 (Or.inl rfl)⟩⟩

/-- C6.  In the object branch of `convertTypeToSchema`, the required list
is exactly the names of the properties carrying a required-type validator
and no explicit-optionality validator, so (for distinct names) a property
is required iff that check passes — explicit optionality always wins. -/
theorem c6_required_iff :
    ∀ (tm : TypeMetadata) (props : List PropertyMetadata),
      tm.isPrimitive = false →
      (tm.isArray && tm.elementType.isSome) = false →
      (tm.isEnum && tm.enumValues.isSome) = false →
      tm.properties = some props →
      ((convertTypeToSchema (some tm)).requiredD
          = (props.filter requiredPass).map PropertyMetadata.name)
      ∧ (∀ p ∈ props, (props.map PropertyMetadata.name).Nodup →
          (p.name ∈ (convertTypeToSchema (some tm)).requiredD ↔ requiredPass p = true)) := by
  intro tm props h1 h2 h3 h4
  cases tm with
  | mk ty iP iA iE iO fmt eT eV ps =>
    simp only [TypeMetadata.isPrimitive] at h1
    simp only [TypeMetadata.isArray, TypeMetadata.elementType] at h2
    simp only [TypeMetadata.isEnum, TypeMetadata.enumValues] at h3
    simp only [TypeMetadata.properties] at h4
    subst h1 h4
    have hconv : (convertTypeToSchema (some (.mk ty false iA iE iO fmt eT eV (some props)))).requiredD
        = (convertPropsLoop props).2 := by
      cases iA <;> cases iE <;> cases eT <;> cases eV <;>
        first
          | exact ifNonempty_getD _
          | simp_all
    refine ⟨?_, ?_⟩
    · rw [hconv, convertPropsLoop_required]
    · intro p hp hn
      rw [hconv, convertPropsLoop_required]
      exact mem_requiredNames_iff props p hp hn

/-- The object type of C6's witness: one property with only a required-type
validator, one with both a required-type and an optionality validator. -/
def c6Tm : TypeMetadata :=
  .mk "object" false false false false none none none
    (some [.mk "a" none true none (some [⟨"IsNotEmpty", none⟩]),
           .mk "b" none true none (some [⟨"IsNotEmpty", none⟩, ⟨"IsOptional", none⟩])])

/-- Closed instance of C6 at a concrete input: only the property without
the optionality validator is required. -/
theorem c6_witness :
    c6Tm.isPrimitive = false
  ∧ (c6Tm.isArray && c6Tm.elementType.isSome) = false
  ∧ (convertTypeToSchema (some c6Tm)).requiredD = ["a"] :=
  ⟨rfl, rfl,
   ((c6_required_iff c6Tm
      [.mk "a" none true none (some [⟨"IsNotEmpty", none⟩]),
       .mk "b" none true none (some [⟨"IsNotEmpty", none⟩, ⟨"IsOptional", none⟩])]
      rfl rfl rfl rfl).1).trans rfl⟩

/-- A parameter object produced by `createParameters` comes from a kept
path/query parameter and copies its location and required computation. -/
theorem mem_createParameters {params : List ParamMetadata} {q : ParameterObject}
    (h : q ∈ (createParameters params).getD []) :
    ∃ p ∈ params, (p.inLoc = "path" ∨ p.inLoc = "query")
      ∧ q.inLoc = p.inLoc ∧ q.required = ((p.inLoc = "path") || p.required) := by
  unfold createParameters at h
  split_ifs at h with he
  · simp at h
  · rw [Option.getD_some] at h
    obtain ⟨p, hp, rfl⟩ := List.mem_map.mp h
    have := List.mem_filter.mp hp
    refine ⟨p, this.1, ?_, rfl, rfl⟩
    simpa using this.2

/-- C7.  A parameter extracted from a `Param` decorator has path location
and is required whatever the declared optionality, and every path-location
parameter in an assembled operation's parameter list is required. -/
theorem c7_path_params_required :
    (∀ (p : ParamDecl) (args : List String),
      (buildParamMetadata p args "Param").inLoc = "path"
      ∧ (buildParamMetadata p args "Param").required = true)
  ∧ (∀ (params : List ParamMetadata) (q : ParameterObject),
      q ∈ (createParameters params).getD [] → q.inLoc = "path" → q.required = true) := by
  constructor
  · intro p args
    exact ⟨rfl, rfl⟩
  · intro params q hq hpath
    obtain ⟨p, _, _, hql, hqr⟩ := mem_createParameters hq
    rw [hqr]
    have hp : p.inLoc = "path" := hql ▸ hpath
    simp [hp]

/-- Closed instance of C7 at a concrete input: an optionally declared
path parameter is still required, through extraction and assembly. -/
theorem c7_witness :
    (buildParamMetadata
        { paramName := "id", typeName := "string", isString := true, hasQuestionToken := true }
        [] "Param").required = true
  ∧ ((buildParamMetadata
        { paramName := "id", typeName := "string", isString := true, hasQuestionToken := true }
        [] "Param").inLoc = "path")
  ∧ (∀ q, q ∈ (createParameters
        [buildParamMetadata
          { paramName := "id", typeName := "string", isString := true, hasQuestionToken := true }
          [] "Param"]).getD [] → q.inLoc = "path" → q.required = true) :=
  ⟨(c7_path_params_required.1
      { paramName := "id", typeName := "string", isString := true, hasQuestionToken := true }
      []).2,
   (c7_path_params_required.1
      { paramName := "id", typeName := "string", isString := true, hasQuestionToken := true }
      []).1,
   fun q hq hp => c7_path_params_required.2 _ q hq hp⟩

/-- Dropping header-location parameters does not change the path/query
filter. -/
theorem filter_pathquery_nonheader (params : List ParamMetadata) :
    (params.filter (fun p => p.inLoc ≠ "header")).filter
        (fun p => p.inLoc = "path" || p.inLoc = "query")
      = params.filter (fun p => p.inLoc = "path" || p.inLoc = "query") := by
  induction params with
  | nil => rfl
  | cons p rest ih =>
    by_cases h : (p.inLoc = "path" ∨ p.inLoc = "query")
    · have hnh : p.inLoc ≠ "header" := by
        rcases h with h | h <;> rw [h] <;> decide
      rw [List.filter_cons_of_pos (by simpa using hnh),
        List.filter_cons_of_pos (by simpa using h),
        List.filter_cons_of_pos (by simpa using h), ih]
    · by_cases hh : p.inLoc = "header"
      · rw [List.filter_cons_of_neg (by simpa using hh),
          List.filter_cons_of_neg (by simpa using h), ih]
      · rw [List.filter_cons_of_pos (by simpa using hh),
          List.filter_cons_of_neg (by simpa using h),
          List.filter_cons_of_neg (by simpa using h), ih]

/-- C10.  Assembled parameter lists hold only path and query locations;
header-location parameters are silently dropped (filtering them away
changes nothing), and an operation whose route has only header parameters
has no parameters field at all. -/
theorem c10_header_params_omitted :
    (∀ (params : List ParamMetadata) (q : ParameterObject),
      q ∈ (createParameters params).getD [] → q.inLoc = "path" ∨ q.inLoc = "query")
  ∧ (∀ params : List ParamMetadata,
      createParameters params
        = createParameters (params.filter (fun p => p.inLoc ≠ "header")))
  ∧ (∀ (r : RouteMetadata) (c : ControllerMetadata),
      (∀ p ∈ r.params.getD [], p.inLoc = "header") →
      (createOperation r c).parameters = none) := by
  refine ⟨?_, ?_, ?_⟩
  · intro params q hq
    obtain ⟨p, _, hloc, hql, _⟩ := mem_createParameters hq
    rw [hql]
    exact hloc
  · intro params
    unfold createParameters createParametersList
    rw [filter_pathquery_nonheader]
  · intro r c h
    show createParameters (r.params.getD []) = none
    have hnil : createParametersList (r.params.getD []) = [] := by
      unfold createParametersList
      have : (r.params.getD []).filter (fun p => p.inLoc = "path" || p.inLoc = "query")
          = [] := by
        rw [List.filter_eq_nil_iff]
        intro p hp
        rw [h p hp]
        decide
      rw [this]
      rfl
    unfold createParameters
    rw [hnil]
    rfl

/-- Closed instance of C10's quantified parts at a concrete input: a route
with one header parameter only. -/
theorem c10_witness :
    createParameters [{ name := "h", inLoc := "header", required := false }]
      = createParameters
          ([{ name := "h", inLoc := "header", required := false }].filter
            (fun p => p.inLoc ≠ "header"))
  ∧ (createOperation
      { name := "g", httpMethod := "GET", path := "x",
        params := some [{ name := "h", inLoc := "header", required := false }] }
      { name := "C", path := "p", category := "Cat" }).parameters = none :=
  ⟨c10_header_params_omitted.2.1 [{ name := "h", inLoc := "header", required := false }],
   c10_header_params_omitted.2.2
      { name := "g", httpMethod := "GET", path := "x",
        params := some [{ name := "h", inLoc := "header", required := false }] }
      { name := "C", path := "p", category := "Cat" }
      (by decide)⟩

/-- C8.  Requesting the specification fails exactly when none has been
generated; with a stored specification it is returned with the service
state unchanged; and immediately after a scan the request succeeds on the
post-scan state. -/
theorem c8_spec_precondition :
    ∀ st : ServiceState,
      ((∃ e, getOpenApiSpec st = .error e) ↔ st.openApiSpec = none)
    ∧ (∀ s, st.openApiSpec = some s → getOpenApiSpec st = .ok (s, st))
    ∧ (∀ (scanned : List ControllerMetadata) (o : AutoDocsOptions) (t : Nat),
        ∃ s, getOpenApiSpec (serviceScan scanned o t st)
          = .ok (s, serviceScan scanned o t st)) := by
  intro st
  refine ⟨⟨?_, ?_⟩, ?_, ?_⟩
  · rintro ⟨e, he⟩
    unfold getOpenApiSpec at he
    cases h : st.openApiSpec with
    | none => rfl
    | some s => rw [h] at he; cases he
  · intro h
    unfold getOpenApiSpec
    rw [h]
    exact ⟨_, rfl⟩
  · intro s h
    unfold getOpenApiSpec
    rw [h]
  · intro scanned o t
    exact ⟨_, rfl⟩

/-- The pre-populated service state of C8's witness. -/
def c8State : ServiceState :=
  { openApiSpec := some (generate [] { title := "t", version := "1" }) }

/-- Closed instance of C8 at a concrete input: a stored specification is
returned unchanged together with the unchanged state. -/
theorem c8_witness :
    c8State.openApiSpec = some (generate [] { title := "t", version := "1" })
  ∧ getOpenApiSpec c8State = .ok (generate [] { title := "t", version := "1" }, c8State) :=
  ⟨rfl, (c8_spec_precondition c8State).2.1 _ rfl⟩

/-- The property list of an object descriptor, empty for the other
variants. -/
def propsOf : TypeDesc → List (String × TypeDesc)
  | .object l => l
  | _ => []

/-- C9.  Resolving a named type that may still be entered expands its
properties once, and a property referencing the type itself resolves to
the terminating `reference` placeholder: the resolution (a total function)
never expands the cycle. -/
theorem c9_cycle_guard :
    ∀ (env : List (String × List (String × TypeRef))) (allowed : List String)
      (n : String) (props : List (String × TypeRef)) (pn : String),
      n ∈ allowed → env.lookup n = some props → (pn, TypeRef.named n) ∈ props →
      (pn, TypeDesc.reference n) ∈ propsOf (resolveType env allowed (.named n)) := by
  intro env allowed n props pn hmem hlk hp
  have hself : resolveType env (allowed.filter (· ≠ n)) (.named n) = .reference n := by
    rw [resolveType]
    rw [if_neg (by simp)]
  have hstep : resolveType env allowed (.named n)
      = .object (props.map (fun pr => (pr.1, resolveType env (allowed.filter (· ≠ n)) pr.2))) := by
    rw [resolveType, if_pos hmem, hlk]
  rw [hstep]
  show (pn, TypeDesc.reference n) ∈ props.map _
  refine List.mem_map.mpr ⟨(pn, .named n), hp, ?_⟩
  show (pn, resolveType env (allowed.filter (· ≠ n)) (.named n)) = (pn, TypeDesc.reference n)
  rw [hself]

/-- Closed instance of C9 at a concrete input: a `Node` type whose `next`
property references `Node` itself resolves to a placeholder. -/
theorem c9_witness :
    ("Node" ∈ (["Node"] : List String))
  ∧ ([("Node", [("next", TypeRef.named "Node")])].lookup "Node"
      = some [("next", TypeRef.named "Node")])
  ∧ (("next", TypeRef.named "Node") ∈ [("next", TypeRef.named "Node")])
  ∧ (("next", TypeDesc.reference "Node") ∈ propsOf
      (resolveType [("Node", [("next", TypeRef.named "Node")])] ["Node"] (.named "Node"))) :=
  ⟨by decide, by decide, by decide,
   c9_cycle_guard [("Node", [("next", TypeRef.named "Node")])] ["Node"] "Node"
      [("next", TypeRef.named "Node")] "next" (by decide) (by decide) (by decide)⟩
